import Mathlib

/-!
Verification of the join decision engine of elastic-etcd (packages
`join/add.go` and `join/join.go`).

The embedding is a shallow one.  Network effects are captured by a `World`
of oracles: liveness and activity probes (`alive`, `active` in the source),
the two token parsers that live in the external `node` and `discovery`
packages, the discovery fetches, and the members-API state.  The external
members-API (spec section 6) is modelled as: `List` returns the current
membership, `Remove` deletes a member by ID and errors when the ID is
absent (as etcd does), and `Add` appends an unstarted member with the given
peer URL.  Every members-API call issued by the code under analysis is
recorded in a trace of `ApiCall`s so that temporal claims about which calls
are issued can be stated.  A Go nil-pointer dereference (a crash) is
modelled as an explicit error value.
-/

deriving instance DecidableEq for Except

namespace ElasticEtcd

/-- A member as seen through the members-API (`client.Member`). -/
structure Member where
  id : String
  name : String
  peerURLs : List String
  clientURLs : List String
deriving DecidableEq, Repr

/-- A discovery roster entry (`discovery.Machine`).  The `discovery` package is
not part of the sources under analysis, so its derived data — the probing
member and the rendered `name=peerURL` strings of `NamedPeerURLs()` — are
carried as abstract fields. -/
structure Machine where
  member : Member
  namedURLs : List String
deriving DecidableEq, Repr

/-- A raw child entry of the discovery prefix `/`: a key and an optional value
(`res.Node.Nodes` in `Join`).  A missing value is `none`. -/
structure RawNode where
  key : String
  value : Option String
deriving DecidableEq, Repr

/-- The four join strategies (`join.go` lines 27-37). -/
inductive Strategy where
  | prepared
  | prune
  | replace
  | add
deriving DecidableEq, Repr

/-- One members-API call, as recorded in the trace of an `Add` run. -/
inductive ApiCall where
  | listCall
  | addCall (peerURL : String)
  | removeCall (id : String)
deriving DecidableEq, Repr

/-- Errors that `MemberAdder.Add` can return.  `noDeadMember` is the
"did not find any dead member" error of `removeDeadMember`, `removeError` a
failing members-API `Remove`, `clusterFullNoDead` the "full cluster and no
dead member" error, `quorumAtRisk` the quorum-guard error, and `emptyUrls`
stands for the index-out-of-range panic on `urls[0]`. -/
inductive AddError where
  | quorumAtRisk
  | noDeadMember
  | clusterFullNoDead
  | removeError
  | emptyUrls
deriving DecidableEq, Repr

/-- The result record of the join algorithm (`EtcdConfig`, `join.go` 44-50).
Fields that Go leaves at their zero value are the empty string or list. -/
structure EtcdConfig where
  initialCluster : List String
  initialClusterState : String
  advertisePeerURLs : String
  discovery : String
  name : String
deriving DecidableEq, Repr

/-- Oracles for everything outside the two analysed files, plus the
members-API membership snapshot.  `activeW` returns `.error ()` where
the source function `active` returns `(false, err)`; the source can never return
`(true, err)`. -/
structure World where
  aliveW : Member → Bool
  activeW : Member → Except Unit Bool
  parseNode : String → String → Option Member
  parseDiscovery : String → Option Machine
  rosterFetch : Except Unit (List RawNode)
  sizeFromDiscovery : Except Unit Int
  adderNewFails : Bool
  members : List Member

/-- A member is healthy when it is alive and actively reports a leader
without error (`protectQuorum` loop, `add.go` 137-141). -/
def healthyB (w : World) (m : Member) : Bool :=
  w.aliveW m && (match w.activeW m with | .ok b => b | .error _ => false)

/-- The health verdict the existence heuristic applies to one roster node
(`clusterExistingHeuristic` goroutine body, `join.go` 101-118). -/
def machineHealthy (w : World) (n : Machine) : Bool :=
  healthyB w n.member

/-- Number of members of the listed membership with a non-empty name
(`startedMembers`, `add.go` 131-136). -/
def startedCount (ms : List Member) : Nat :=
  (ms.filter fun m => !(m.name == "")).length

/-- Number of members of the listed membership that probe healthy
(`healthyMembers`, `add.go` 132-142). -/
def healthyCount (w : World) (ms : List Member) : Nat :=
  (ms.filter (healthyB w)).length

/-- The formula `futureQuorum := (startedMembers+1)/2 + 1` (`add.go` 143). -/
def futureQuorum (ms : List Member) : Nat :=
  (startedCount ms + 1) / 2 + 1

/-- The quorum guard (`protectQuorum`, `add.go` 125-152), applied to the
membership `ms` its own members-API `List` call returns; the caller records
that `List` call in the trace. -/
def protectQuorum (w : World) (ms : List Member) : Except AddError Unit :=
  if healthyCount w ms < futureQuorum ms then .error .quorumAtRisk else .ok ()

/-- Function `findUnstartedMember` (`add.go` 50-76): the first member with an empty
name whose peer URLs are all among the given `urls`. -/
def findUnstartedMember (ms : List Member) (urls : List String) : Option Member :=
  ms.find? fun m => m.name == "" && m.peerURLs.all fun u => urls.contains u

/-- Whether scanning peer URL `url` of member `name` makes `removeDeadMember`
skip the member (`continue searchForDead`, `add.go` 89-106): the URL fails to
parse, or the derived node is alive and the activity check errors, or the
derived node is alive and active. -/
def memberSkipAtUrl (w : World) (name url : String) : Bool :=
  match w.parseNode name url with
  | none => true
  | some nm =>
    if w.aliveW nm then
      match w.activeW nm with
      | .error _ => true
      | .ok isActive => isActive
    else false

/-- The dead-member selection loop of `removeDeadMember` (`add.go` 83-109):
a member with no peer URLs is selected at once; otherwise the member is
selected unless some peer URL makes the loop skip it. -/
def findDead (w : World) : List Member → Option Member
  | [] => none
  | m :: rest =>
    if m.peerURLs.isEmpty then some m
    else if m.peerURLs.any (memberSkipAtUrl w m.name) then findDead w rest
    else some m

/-- Function `removeDeadMember` (`add.go` 78-123) acting on the current members-API
state `st` while scanning the (possibly stale) listed membership `ms`.
Returns the Go pair `(selected, err)` as `Except AddError (Option Member)`
(the source never produces `.ok none`), the calls issued, and the new state. -/
def removeDeadMember (w : World) (st : List Member) (ms : List Member) :
    Except AddError (Option Member) × List ApiCall × List Member :=
  match findDead w ms with
  | none => (.error .noDeadMember, [], st)
  | some m =>
    if st.any fun x => x.id == m.id then
      (.ok (some m), [.removeCall m.id], st.filter fun x => !(x.id == m.id))
    else
      (.error .removeError, [.removeCall m.id], st)

/-- The `PruneStrategy` loop of `Add` (`add.go` 192-201): repeatedly call
`removeDeadMember` on the same stale `ms`, breaking on error or on a nil
member.  The loop self-terminates — the stale `ms` makes every iteration
select the same member, whose second removal errors — so any fuel of at
least two reproduces the unbounded loop of the source. -/
def pruneLoop (w : World) (ms : List Member) :
    Nat → List Member → List ApiCall → List Member × List ApiCall
  | 0, st, calls => (st, calls)
  | fuel + 1, st, calls =>
    match removeDeadMember w st ms with
    | (.error _, rcalls, st') => (st', calls ++ rcalls)
    | (.ok none, rcalls, st') => (st', calls ++ rcalls)
    | (.ok (some _), rcalls, st') => pruneLoop w ms fuel st' (calls ++ rcalls)

/-- The `switch ma.strategy` block of `Add` (`add.go` 178-202), run when no
unstarted member was recycled.  Returns the pre-guard verdict, the calls
issued, and the resulting members-API state. -/
def strategyPhase (w : World) (strategy : Strategy) (targetSize : Int) :
    Except AddError Unit × List ApiCall × List Member :=
  match strategy with
  | .replace =>
    match removeDeadMember w w.members w.members with
    | (.error e, rcalls, st') => (.error e, rcalls, st')
    | (.ok none, rcalls, st') =>
      -- this arm is unreachable in the source: `removeDeadMember` never
      -- returns a nil member together with a nil error
      if (w.members.length : Int) ≥ targetSize then (.error .clusterFullNoDead, rcalls, st')
      else (.ok (), rcalls, st')
    | (.ok (some _), rcalls, st') => (.ok (), rcalls, st')
  | .prune =>
    (.ok (), (pruneLoop w w.members (w.members.length + 2) w.members []).2,
     (pruneLoop w w.members (w.members.length + 2) w.members []).1)
  | _ => (.ok (), [], w.members)

/-- Result of one `MemberAdder.Add` run: the returned value or error, the
trace of members-API calls, the final members-API state, and — as ghost
instrumentation for stating guard properties — the membership snapshot the
final quorum guard observed (`none` when the guard never ran). -/
structure AddResult where
  result : Except AddError (List String)
  calls : List ApiCall
  final : List Member
  guardObs : Option (List Member)
deriving DecidableEq, Repr

/-- The common tail of `Add` (`add.go` 204-218): quorum guard — whose `List`
call is recorded here — then the members-API `Add` of `urls[0]`, which
appends a fresh unstarted member to the state. -/
def afterStrategy (w : World) (st : List Member) (calls : List ApiCall)
    (urls : List String) : AddResult :=
  match protectQuorum w st with
  | .error e => ⟨.error e, calls ++ [.listCall], st, some st⟩
  | .ok () =>
    match urls with
    | [] => ⟨.error .emptyUrls, calls ++ [.listCall], st, some st⟩
    | u :: _ =>
      ⟨.ok [u], calls ++ [.listCall, .addCall u], st ++ [⟨"", "", [u], []⟩], some st⟩

/-- Method `Add` of the member adder (`add.go` 154-219): list the membership, recycle a
matching unstarted member if one exists (guard only, no mutation), otherwise
run the strategy phase and then guard-and-add. -/
def MemberAdder.Add (w : World) (strategy : Strategy) (targetSize : Int)
    (urls : List String) : AddResult :=
  match findUnstartedMember w.members urls with
  | some unstarted =>
    match protectQuorum w w.members with
    | .error e => ⟨.error e, [.listCall, .listCall], w.members, some w.members⟩
    | .ok () => ⟨.ok unstarted.peerURLs, [.listCall, .listCall], w.members, some w.members⟩
  | none =>
    match strategyPhase w strategy targetSize with
    | (.error e, rcalls, st') => ⟨.error e, .listCall :: rcalls, st', none⟩
    | (.ok (), rcalls, st') => afterStrategy w st' (.listCall :: rcalls) urls

/-- Function `clusterExistingHeuristic` (`join.go` 85-141).  The nil/non-nil
distinction of the Go slice argument is an `Option`; the concurrently built
`activeNodes` accumulator is determinised as a filter (the spec leaves its
order unspecified).  `Int.tdiv` is the truncating integer division of Go. -/
def clusterExistingHeuristic (healthy : Machine → Bool) (size : Int)
    (nodes : Option (List Machine)) : Option (List Machine) :=
  match nodes with
  | none => none
  | some ns =>
    let quorum : Int := Int.tdiv size 2 + 1
    let activeNodes := ns.filter healthy
    if (ns.length : Int) < quorum then none
    else if (ns.length : Int) = size then some activeNodes
    else if activeNodes.length > 0 then some activeNodes
    else none

/-- The edge policy of the existence heuristic exactly as the specification
words it (claim C3): nil or empty roster is absent; fewer than `size/2 + 1`
nodes is absent regardless of health; exactly `size` nodes is running with
the possibly-empty healthy list; at least one healthy node is running with
the healthy list; otherwise absent. -/
def heuristicSpec (healthy : Machine → Bool) (size : Int)
    (nodes : Option (List Machine)) : Option (List Machine) :=
  match nodes with
  | none => none
  | some ns =>
    if ns.isEmpty then none
    else if (ns.length : Int) < Int.tdiv size 2 + 1 then none
    else if (ns.length : Int) = size then some (ns.filter healthy)
    else if (ns.filter healthy).length > 0 then some (ns.filter healthy)
    else none

/-- Constant `maxInt` (`join.go` 39-40) on a 64-bit platform. -/
def maxInt : Int := 2 ^ 63 - 1

/-- The Go call `strings.Split(s, ",")` (`join.go` 208), written as structural
recursion over the characters so that it evaluates in the kernel.  On the
empty string it returns `[""]`, like Go. -/
def splitCommaAux : List Char → List Char → List String
  | [], acc => [String.mk acc.reverse]
  | c :: cs, acc =>
    if c = ',' then String.mk acc.reverse :: splitCommaAux cs []
    else splitCommaAux cs (c :: acc)

/-- Split a comma-separated list, Go `strings.Split` semantics. -/
def splitComma (s : String) : List String :=
  splitCommaAux s.data []

/-- Concatenation of the `NamedPeerURLs()` of a machine list
(`activeNamedURLs`, `join.go` 203-206). -/
def allNamedURLs : List Machine → List String
  | [] => []
  | n :: rest => n.namedURLs ++ allNamedURLs rest

/-- Errors (and modelled crashes) of `Join`.  `nilValuePanic` is the nil
pointer dereference of `*nn.Value` on a discovery entry without a value
(`join.go` 158-162); `clusterDownNotJoinable` is the "Cluster is down"
error; `joinFailed` wraps an `Add` failure; `indexPanic` stands for an
index-out-of-range on `advertisedNamedURLs[0]`. -/
inductive JoinError where
  | discoveryError
  | nilValuePanic
  | sizeFetchError
  | clusterDownNotJoinable
  | adderNewError
  | joinFailed (e : AddError)
  | indexPanic
deriving DecidableEq, Repr

/-- Observable events of a `Join` run: discovery fetches, the construction
of a member adder, and the members-API calls the adder issues. -/
inductive JoinEvent where
  | discoveryFetch (path : String)
  | adderConstructed
  | api (c : ApiCall)
deriving DecidableEq, Repr

/-- The roster-building loop of `Join` (`join.go` 156-168): an entry without
a value is dereferenced and crashes (the skip log is not followed by a
`continue` in the source); an entry whose value does not parse is skipped;
parsed entries are collected in order. -/
def buildRoster (w : World) : List RawNode → Except JoinError (List Machine)
  | [] => .ok []
  | nn :: rest =>
    match nn.value with
    | none => .error .nilValuePanic
    | some v =>
      match w.parseDiscovery v with
      | none => buildRoster w rest
      | some n =>
        match buildRoster w rest with
        | .error e => .error e
        | .ok ns => .ok (n :: ns)

/-- Fetch of the discovery prefix `/` followed by roster building
(`join.go` 152-168). -/
def rosterResult (w : World) : Except JoinError (List Machine) :=
  match w.rosterFetch with
  | .error _ => .error .discoveryError
  | .ok raw => buildRoster w raw

/-- The target-size adjustment of `Join` (`join.go` 170-182): a negative
`clusterSize` is read from `/_config/size` (surfacing a fetch failure), zero
means unlimited (`maxInt`), and a positive value is used as given. -/
def adjustedSize (w : World) (clusterSize : Int) : Except JoinError Int :=
  if clusterSize < 0 then
    match w.sizeFromDiscovery with
    | .error _ => .error .sizeFetchError
    | .ok s => .ok s
  else if clusterSize = 0 then .ok maxInt
  else .ok clusterSize

/-- The discovery-fetch events of a `Join` run: the prefix `/` always, and
`/_config/size` when the size has to be read from discovery. -/
def joinEvPrefix (clusterSize : Int) : List JoinEvent :=
  [.discoveryFetch "/"]
    ++ (if clusterSize < 0 then [JoinEvent.discoveryFetch "/_config/size"] else [])

/-- The events of constructing a member adder and running its `Add`. -/
def adderEvents (w : World) (strategy : Strategy) (size : Int)
    (urls : List String) : List JoinEvent :=
  [JoinEvent.adderConstructed]
    ++ (MemberAdder.Add w strategy size urls).calls.map JoinEvent.api

/-- Function `Join` (`join.go` 144-257): fetch and parse the roster, adjust the
target size, classify via the existence heuristic, and dispatch to the
dormant, running, or new-cluster branch, delegating to `MemberAdder.Add`
when an existing cluster is joined by a fresh node under a non-prepared
strategy. -/
def JoinRun (w : World) (discoveryURL name initialAdvertisePeerURLs : String)
    (fresh : Bool) (clusterSize : Int) (strategy : Strategy) :
    Except JoinError EtcdConfig × List JoinEvent :=
  match rosterResult w with
  | .error e => (.error e, [.discoveryFetch "/"])
  | .ok nodes =>
    match adjustedSize w clusterSize with
    | .error e => (.error e, joinEvPrefix clusterSize)
    | .ok size =>
      match clusterExistingHeuristic (machineHealthy w) size (some nodes) with
      | some [] =>
        if fresh then (.error .clusterDownNotJoinable, joinEvPrefix clusterSize)
        else
          (.ok { initialCluster := [], initialClusterState := "existing",
                 advertisePeerURLs := initialAdvertisePeerURLs,
                 discovery := "", name := name }, joinEvPrefix clusterSize)
      | some activeNodes =>
        match (splitComma initialAdvertisePeerURLs).map fun u => name ++ "=" ++ u with
        | [] => (.error .indexPanic, joinEvPrefix clusterSize)
        | first :: _ =>
          if !(strategy == Strategy.prepared) && fresh then
            if w.adderNewFails then
              (.error .adderNewError,
               joinEvPrefix clusterSize ++ [JoinEvent.adderConstructed])
            else
              match (MemberAdder.Add w strategy size
                  (splitComma initialAdvertisePeerURLs)).result with
              | .error e =>
                (.error (.joinFailed e),
                 joinEvPrefix clusterSize
                   ++ adderEvents w strategy size (splitComma initialAdvertisePeerURLs))
              | .ok initialURLs =>
                (.ok { initialCluster :=
                         (initialURLs.map fun u => name ++ "=" ++ u)
                           ++ allNamedURLs activeNodes,
                       initialClusterState := "existing",
                       advertisePeerURLs := initialAdvertisePeerURLs,
                       discovery := "", name := name },
                 joinEvPrefix clusterSize
                   ++ adderEvents w strategy size (splitComma initialAdvertisePeerURLs))
          else
            (.ok { initialCluster := first :: allNamedURLs activeNodes,
                   initialClusterState := "existing",
                   advertisePeerURLs := initialAdvertisePeerURLs,
                   discovery := "", name := name }, joinEvPrefix clusterSize)
      | none =>
        (.ok { initialCluster := [], initialClusterState := "new",
               advertisePeerURLs := initialAdvertisePeerURLs,
               discovery := discoveryURL, name := name }, joinEvPrefix clusterSize)

/-- Whether a members-API call is an `Add`. -/
def isAddCall : ApiCall → Bool
  | .addCall _ => true
  | _ => false

/-- Whether a members-API call is a `Remove`. -/
def isRemoveCall : ApiCall → Bool
  | .removeCall _ => true
  | _ => false

/-- Whether a call trace contains a members-API `Add`. -/
def hasAddCall (calls : List ApiCall) : Bool :=
  calls.any isAddCall

/-- Number of membership-mutating calls (`Add` or `Remove`) in a trace. -/
def mutationCount (calls : List ApiCall) : Nat :=
  (calls.filter fun c => isAddCall c || isRemoveCall c).length

/-- Whether a `Join` event is a membership-mutating members-API call. -/
def isMutationEvent : JoinEvent → Bool
  | .api c => isAddCall c || isRemoveCall c
  | _ => false

/-- Whether a `Join` event is the construction of a member adder. -/
def isAdderBuild : JoinEvent → Bool
  | .adderConstructed => true
  | _ => false

/-- The string `s` begins with the named-URL prefix `name ++ "="`, i.e. it
is the rendering `name=peerURL` of some URL under this node name. -/
def namedFor (name s : String) : Prop :=
  ∃ u : String, s = name ++ "=" ++ u

/-- Relation `namedFor` is the data-level prefix relation, hence decidable. -/
theorem namedFor_iff (name s : String) :
    namedFor name s ↔ (name ++ "=").data <+: s.data := by
  constructor
  · rintro ⟨u, rfl⟩
    refine ⟨u.data, ?_⟩
    simp [String.data_append, List.append_assoc]
  · rintro ⟨t, ht⟩
    refine ⟨String.mk t, String.ext ?_⟩
    simpa [String.data_append, List.append_assoc] using ht.symm

instance (name s : String) : Decidable (namedFor name s) :=
  decidable_of_iff _ (namedFor_iff name s).symm

/-! Concrete members, machines and worlds used by the witnesses and
counterexamples below.  Members `a`, `b`, `c` probe healthy, all other
members probe dead; the derived node `parseNode` builds for a peer URL
carries the name of the member, so it probes like the member itself. -/

/-- Started member `a`, healthy. -/
def mA : Member := ⟨"idA", "a", ["http://a:2380"], []⟩

/-- Started member `b`, healthy. -/
def mB : Member := ⟨"idB", "b", ["http://b:2380"], []⟩

/-- Started member `c`, healthy. -/
def mC : Member := ⟨"idC", "c", ["http://c:2380"], []⟩

/-- Started member `d1`, dead. -/
def mD1 : Member := ⟨"idD1", "d1", ["http://d1:2380"], []⟩

/-- Started member `d2`, dead. -/
def mD2 : Member := ⟨"idD2", "d2", ["http://d2:2380"], []⟩

/-- Unstarted member with no peer URLs. -/
def mU : Member := ⟨"idU", "", [], []⟩

/-- Unstarted member advertising the peer URL of the joining node. -/
def mU1 : Member := ⟨"idU1", "", ["http://n:2380"], []⟩

/-- Names of the members that probe alive and active in the sample worlds. -/
def healthyNames : List String := ["a", "b", "c"]

/-- Discovery machine for node `a`. -/
def machA : Machine := ⟨⟨"", "a", ["http://a:2380"], ["http://a:2379"]⟩, ["a=http://a:2380"]⟩

/-- Discovery machine for node `b`. -/
def machB : Machine := ⟨⟨"", "b", ["http://b:2380"], ["http://b:2379"]⟩, ["b=http://b:2380"]⟩

/-- Discovery machine for node `c`. -/
def machC : Machine := ⟨⟨"", "c", ["http://c:2380"], ["http://c:2379"]⟩, ["c=http://c:2380"]⟩

/-- Base sample world: members named `a`, `b` or `c` probe healthy,
everything else is dead; discovery is empty. -/
def baseWorld : World where
  aliveW := fun m => healthyNames.contains m.name
  activeW := fun m => .ok (healthyNames.contains m.name)
  parseNode := fun name url => some ⟨"", name, [url], []⟩
  parseDiscovery := fun _ => none
  rosterFetch := .ok []
  sizeFromDiscovery := .error ()
  adderNewFails := false
  members := []

/-- Two healthy started members and no dead one. -/
def wAllHealthy : World := { baseWorld with members := [mA, mB] }

/-- Two healthy started members plus an unstarted member: the quorum guard
counts two started members although the listed membership has three. -/
def wWithUnstarted : World := { baseWorld with members := [mA, mB, mU] }

/-- Three started members of which only one is healthy: the guard fails. -/
def wGuardFails : World := { baseWorld with members := [mA, mD1, mD2] }

/-- Three healthy started members and two dead ones. -/
def wTwoDead : World := { baseWorld with members := [mA, mB, mC, mD1, mD2] }

/-- Membership whose first unstarted match has a peer URL, while a zero-URL
unstarted member sits behind it. -/
def wTwoUnstarted : World := { baseWorld with members := [mU1, mU, mA, mB] }

/-- Full join world: discovery holds nodes `a` and `b`, both healthy, and
the membership holds `a`, `b` and a zero-URL unstarted member. -/
def wJoin : World :=
  { baseWorld with
    members := [mA, mB, mU]
    rosterFetch := .ok [⟨"/nodes/a", some "a=http://a:2380"⟩, ⟨"/nodes/b", some "b=http://b:2380"⟩]
    parseDiscovery := fun v =>
      if v == "a=http://a:2380" then some machA
      else if v == "b=http://b:2380" then some machB
      else none }

/-- Dormant join world: discovery holds a full roster of three nodes but
nothing is alive. -/
def wDormant : World :=
  { baseWorld with
    aliveW := fun _ => false
    activeW := fun _ => .error ()
    rosterFetch := .ok [⟨"/nodes/a", some "a=http://a:2380"⟩,
                        ⟨"/nodes/b", some "b=http://b:2380"⟩,
                        ⟨"/nodes/c", some "c=http://c:2380"⟩]
    parseDiscovery := fun v =>
      if v == "a=http://a:2380" then some machA
      else if v == "b=http://b:2380" then some machB
      else if v == "c=http://c:2380" then some machC
      else none }

/-- Discovery response containing an entry without a value. -/
def wNilValue : World :=
  { baseWorld with rosterFetch := .ok [⟨"/nodes/x", none⟩] }

/-- Discovery response with one unparseable entry before a good one. -/
def wBadToken : World :=
  { wJoin with
    rosterFetch := .ok [⟨"/nodes/bad", some "garbage"⟩, ⟨"/nodes/a", some "a=http://a:2380"⟩] }

/-! Supporting lemmas about the quorum guard and the call traces. -/

theorem protectQuorum_ok_iff (w : World) (ms : List Member) :
    protectQuorum w ms = .ok () ↔ futureQuorum ms ≤ healthyCount w ms := by
  unfold protectQuorum
  split
  next h => simp only [reduceCtorEq, false_iff]; omega
  next h => simp only [true_iff]; omega

theorem protectQuorum_error_eq (w : World) (ms : List Member) (e : AddError)
    (h : protectQuorum w ms = .error e) : e = .quorumAtRisk := by
  unfold protectQuorum at h
  split at h
  · injection h with h'
    exact h'.symm
  · exact absurd h (by simp)

theorem hasAddCall_append (l₁ l₂ : List ApiCall) :
    hasAddCall (l₁ ++ l₂) = (hasAddCall l₁ || hasAddCall l₂) :=
  List.any_append

theorem afterStrategy_guardObs (w : World) (st : List Member) (calls : List ApiCall)
    (urls : List String) : (afterStrategy w st calls urls).guardObs = some st := by
  unfold afterStrategy
  rcases h : protectQuorum w st with e | u
  · rfl
  · cases u; cases urls <;> rfl

theorem afterStrategy_ok_guard (w : World) (st : List Member) (calls : List ApiCall)
    (urls : List String) (r : List String)
    (h : (afterStrategy w st calls urls).result = .ok r) : protectQuorum w st = .ok () := by
  unfold afterStrategy at h
  rcases hpq : protectQuorum w st with e | u
  · rw [hpq] at h; exact absurd h (by simp)
  · cases u; rfl

theorem afterStrategy_guard_fail (w : World) (st : List Member) (calls : List ApiCall)
    (urls : List String) (hg : healthyCount w st < futureQuorum st)
    (hc : hasAddCall calls = false) :
    (afterStrategy w st calls urls).result = .error .quorumAtRisk
      ∧ hasAddCall (afterStrategy w st calls urls).calls = false := by
  have hpq : protectQuorum w st = .error .quorumAtRisk := by
    unfold protectQuorum; rw [if_pos hg]
  unfold afterStrategy
  rw [hpq]
  refine ⟨rfl, ?_⟩
  rw [hasAddCall_append, hc]
  decide

theorem removeDeadMember_noAdd (w : World) (st ms : List Member) :
    hasAddCall (removeDeadMember w st ms).2.1 = false := by
  unfold removeDeadMember
  rcases findDead w ms with _ | m
  · rfl
  · dsimp only
    split <;> rfl

theorem pruneLoop_noAdd (w : World) (ms : List Member) (fuel : Nat) :
    ∀ (st : List Member) (calls : List ApiCall), hasAddCall calls = false →
      hasAddCall (pruneLoop w ms fuel st calls).2 = false := by
  induction fuel with
  | zero => intro st calls h; exact h
  | succ n ih =>
    intro st calls h
    unfold pruneLoop
    have hrc := removeDeadMember_noAdd w st ms
    rcases hr : removeDeadMember w st ms with ⟨res, rcalls, st'⟩
    rw [hr] at hrc
    rcases res with e | o
    · simpa [hasAddCall_append, h] using hrc
    · rcases o with _ | m
      · simpa [hasAddCall_append, h] using hrc
      · exact ih st' (calls ++ rcalls) (by simpa [hasAddCall_append, h] using hrc)

theorem strategyPhase_noAdd (w : World) (strat : Strategy) (ts : Int) :
    hasAddCall (strategyPhase w strat ts).2.1 = false := by
  cases strat with
  | replace =>
    have hrc := removeDeadMember_noAdd w w.members w.members
    simp only [strategyPhase]
    split
    next heq => rw [heq] at hrc; exact hrc
    next heq => rw [heq] at hrc; split <;> exact hrc
    next heq => rw [heq] at hrc; exact hrc
  | prune =>
    unfold strategyPhase
    exact pruneLoop_noAdd w w.members (w.members.length + 2) w.members [] rfl
  | prepared => rfl
  | add => rfl

/-- Case analysis of one `MemberAdder.Add` run: a successful unstarted-slot
recycle, an unstarted-slot recycle stopped by the guard, a run that reaches
the guard-and-add tail with only non-`Add` calls issued so far, or a
strategy-phase failure in which the guard never ran. -/
theorem Add_cases (w : World) (strategy : Strategy) (ts : Int) (urls : List String) :
    (∃ m, findUnstartedMember w.members urls = some m
       ∧ protectQuorum w w.members = .ok ()
       ∧ MemberAdder.Add w strategy ts urls
           = ⟨.ok m.peerURLs, [.listCall, .listCall], w.members, some w.members⟩)
    ∨ (protectQuorum w w.members = .error .quorumAtRisk
       ∧ MemberAdder.Add w strategy ts urls
           = ⟨.error .quorumAtRisk, [.listCall, .listCall], w.members, some w.members⟩)
    ∨ (∃ st' pre, hasAddCall pre = false
       ∧ MemberAdder.Add w strategy ts urls = afterStrategy w st' pre urls)
    ∨ ((MemberAdder.Add w strategy ts urls).guardObs = none
       ∧ ∃ e, (MemberAdder.Add w strategy ts urls).result = .error e) := by
  have hrc := strategyPhase_noAdd w strategy ts
  unfold MemberAdder.Add
  split
  next m hfu =>
    split
    next e hpq =>
      have he := protectQuorum_error_eq w w.members e hpq
      subst he
      exact Or.inr (Or.inl ⟨hpq, rfl⟩)
    next hpq =>
      exact Or.inl ⟨m, hfu, hpq, rfl⟩
  next hfu =>
    split
    next e rcalls st' hsp =>
      exact Or.inr (Or.inr (Or.inr ⟨rfl, e, rfl⟩))
    next rcalls st' hsp =>
      rw [hsp] at hrc
      refine Or.inr (Or.inr (Or.inl ⟨st', .listCall :: rcalls, ?_, rfl⟩))
      simpa [hasAddCall, isAddCall] using hrc

/-- Claim C1, counterexample to the claimed guard formula: a membership of
three listed members — two healthy started ones and one unstarted one —
passes the guard although the healthy count 2 is below
`(m+1)/2 + 1 = 3` for the full membership size `m = 3`. -/
theorem C1_quorum_guard_counterexample :
    protectQuorum wWithUnstarted wWithUnstarted.members = .ok ()
    ∧ healthyCount wWithUnstarted wWithUnstarted.members = 2
    ∧ wWithUnstarted.members.length = 3
    ∧ decide (healthyCount wWithUnstarted wWithUnstarted.members <
        (wWithUnstarted.members.length + 1) / 2 + 1) = true :=
  ⟨by decide, by decide, by decide, by decide⟩

/-- Claim C1, amended: the guard passes iff `h ≥ (s+1)/2 + 1` where `s` is
the number of started members (non-empty name) of the freshly listed
membership — not the full membership size — and `h` the number of members
probing alive-and-active; whenever `Add` returns successfully the guard held
of the membership it observed just before, and whenever the guard fails,
`Add` returns the quorum-at-risk error and no members-API add call is
issued. -/
theorem C1_quorum_guard_amended (w : World) (strategy : Strategy) (ts : Int)
    (urls : List String) :
    (∀ ms : List Member,
        (protectQuorum w ms = .ok () ↔ futureQuorum ms ≤ healthyCount w ms))
    ∧ (∀ r : List String, (MemberAdder.Add w strategy ts urls).result = .ok r →
        ∃ ms, (MemberAdder.Add w strategy ts urls).guardObs = some ms
          ∧ futureQuorum ms ≤ healthyCount w ms)
    ∧ (∀ ms : List Member, (MemberAdder.Add w strategy ts urls).guardObs = some ms →
        healthyCount w ms < futureQuorum ms →
        (MemberAdder.Add w strategy ts urls).result = .error .quorumAtRisk
          ∧ hasAddCall (MemberAdder.Add w strategy ts urls).calls = false) := by
  refine ⟨protectQuorum_ok_iff w, ?_, ?_⟩
  · intro r hr
    rcases Add_cases w strategy ts urls with
      ⟨m, hfu, hpq, heq⟩ | ⟨hpq, heq⟩ | ⟨st', pre, hpre, heq⟩ | ⟨hob, e, herr⟩
    · exact ⟨w.members, by rw [heq], (protectQuorum_ok_iff w w.members).mp hpq⟩
    · rw [heq] at hr; exact absurd hr (by simp)
    · rw [heq] at hr ⊢
      have hg := afterStrategy_ok_guard w st' pre urls r hr
      exact ⟨st', afterStrategy_guardObs w st' pre urls,
        (protectQuorum_ok_iff w st').mp hg⟩
    · rw [herr] at hr; exact absurd hr (by simp)
  · intro ms hob hlt
    rcases Add_cases w strategy ts urls with
      ⟨m, hfu, hpq, heq⟩ | ⟨hpq, heq⟩ | ⟨st', pre, hpre, heq⟩ | ⟨hob', e, herr⟩
    · rw [heq] at hob
      have hms : ms = w.members := by simpa using hob.symm
      subst hms
      have := (protectQuorum_ok_iff w w.members).mp hpq
      omega
    · rw [heq] at hob ⊢
      exact ⟨rfl, rfl⟩
    · rw [heq] at hob ⊢
      have hms : ms = st' := by
        have := afterStrategy_guardObs w st' pre urls
        rw [this] at hob
        simpa using hob.symm
      subst hms
      exact afterStrategy_guard_fail w ms pre urls hlt hpre
    · rw [hob'] at hob; exact absurd hob (by simp)

/-- Claim C1 witness: part (b) applied to a concrete successful run, and
part (c) applied to a concrete guard-failing run. -/
theorem C1_quorum_guard_amended_witness :
    (∃ ms, (MemberAdder.Add wJoin .add 3 ["http://n:2380"]).guardObs = some ms
      ∧ futureQuorum ms ≤ healthyCount wJoin ms)
    ∧ ((MemberAdder.Add wGuardFails .add 3 ["http://n:2380"]).result
          = .error .quorumAtRisk
      ∧ hasAddCall (MemberAdder.Add wGuardFails .add 3 ["http://n:2380"]).calls = false) :=
  ⟨(C1_quorum_guard_amended wJoin .add 3 ["http://n:2380"]).2.1 [] (by decide),
   (C1_quorum_guard_amended wGuardFails .add 3 ["http://n:2380"]).2.2
     wGuardFails.members (by decide) (by decide)⟩

/-- Claim C2 (code bug): with the replace strategy and a membership of two
healthy members below the target size 5, `Add` neither reaches the quorum
guard nor the members-API add: `removeDeadMember` returns its
"did not find any dead member" error instead of a nil member, so `Add`
aborts with that error after the single initial `List` call, and the
`removed == nil` branch holding the cluster-full check is unreachable. -/
theorem C2_replace_no_dead_eval :
    (MemberAdder.Add wAllHealthy .replace 5 ["http://n:2380"]).result
        = .error .noDeadMember
    ∧ (MemberAdder.Add wAllHealthy .replace 5 ["http://n:2380"]).calls = [.listCall]
    ∧ decide ((wAllHealthy.members.length : Int) < 5) = true
    ∧ hasAddCall (MemberAdder.Add wAllHealthy .replace 5 ["http://n:2380"]).calls
        = false :=
  ⟨by decide, by decide, by decide, by decide⟩

/-- Claim C3: the existence heuristic classifies exactly by the stated edge
policy — the source heuristic and the policy written from the claim's words
agree on every health oracle, target size and roster. -/
theorem C3_heuristic_edge_policy (healthy : Machine → Bool) (size : Int)
    (nodes : Option (List Machine)) :
    clusterExistingHeuristic healthy size nodes = heuristicSpec healthy size nodes := by
  cases nodes with
  | none => rfl
  | some ns =>
    cases ns with
    | cons a l => rfl
    | nil =>
      by_cases h1 : ((0 : Int) < Int.tdiv size 2 + 1)
      · simp [clusterExistingHeuristic, heuristicSpec, h1]
      · have h2 : ¬((0 : Int) = size) := by
          intro h
          rw [← h] at h1
          exact h1 (by decide)
        simp [clusterExistingHeuristic, heuristicSpec, h1, h2]

/-- Claim C7 (code bug): under the prune strategy with two dead members
`d1`, `d2` behind three healthy ones, the run issues two consecutive
members-API remove calls for the same ID `idD1` (the second fails because
the membership snapshot is never refreshed) and ends with dead member `d2`
still present. -/
theorem C7_prune_eval :
    (MemberAdder.Add wTwoDead .prune 9 ["http://n:2380"]).calls =
      [.listCall, .removeCall "idD1", .removeCall "idD1", .listCall,
       .addCall "http://n:2380"]
    ∧ (MemberAdder.Add wTwoDead .prune 9 ["http://n:2380"]).final =
      [mA, mB, mC, mD2, ⟨"", "", ["http://n:2380"], []⟩]
    ∧ (MemberAdder.Add wTwoDead .prune 9 ["http://n:2380"]).result
        = .ok ["http://n:2380"] :=
  ⟨by decide, by decide, by decide⟩

theorem afterStrategy_removes (w : World) (st : List Member) (pre : List ApiCall)
    (urls : List String) :
    (afterStrategy w st pre urls).calls.filter isRemoveCall = pre.filter isRemoveCall := by
  unfold afterStrategy
  split
  · simp [List.filter_append, isRemoveCall]
  · cases urls <;> simp [List.filter_append, isRemoveCall]

theorem joinEvPrefix_clean (cs : Int) :
    (joinEvPrefix cs).filter (fun e => isMutationEvent e || isAdderBuild e) = [] := by
  unfold joinEvPrefix
  split <;> decide

/-- Claim C6, counterexample to its `Adder.Add` half: invoked directly with
the prepared strategy on a membership without a matching unstarted slot,
`Add` falls through the strategy switch and issues a members-API add call. -/
theorem C6_prepared_add_counterexample :
    (MemberAdder.Add wAllHealthy .prepared 5 ["http://n:2380"]).calls =
      [.listCall, .listCall, .addCall "http://n:2380"]
    ∧ hasAddCall (MemberAdder.Add wAllHealthy .prepared 5 ["http://n:2380"]).calls
        = true :=
  ⟨by decide, by decide⟩

/-- Claim C6, amended: under the prepared strategy `Join` never constructs a
member adder and never issues a members-API add or remove call; `Adder.Add`
invoked with the prepared strategy never issues a remove call, but it does
fall through to the members-API add when no unstarted slot matches. -/
theorem C6_prepared_amended (w : World) (du n iapu : String) (fresh : Bool)
    (cs ts : Int) (urls : List String) :
    ((JoinRun w du n iapu fresh cs .prepared).2.filter
        fun e => isMutationEvent e || isAdderBuild e) = []
    ∧ (MemberAdder.Add w .prepared ts urls).calls.filter isRemoveCall = [] := by
  constructor
  · unfold JoinRun
    split
    · rfl
    · split
      · exact joinEvPrefix_clean cs
      · split
        · split
          · exact joinEvPrefix_clean cs
          · exact joinEvPrefix_clean cs
        · split
          · exact joinEvPrefix_clean cs
          · rw [if_neg (by simp)]
            exact joinEvPrefix_clean cs
        · exact joinEvPrefix_clean cs
  · unfold MemberAdder.Add
    split
    · split
      · rfl
      · rfl
    · show (afterStrategy w w.members [.listCall] urls).calls.filter isRemoveCall = []
      rw [afterStrategy_removes]
      rfl

/-- Claim C5: a dormant verdict (non-nil empty active list) makes a fresh
join fail with the cluster-down error and lets a non-fresh join resume with
an existing-state config carrying no initial cluster and no discovery URL. -/
theorem C5_dormant_dispatch (w : World) (du n iapu : String) (cs : Int)
    (strat : Strategy) (ns : List Machine) (sz : Int)
    (hr : rosterResult w = .ok ns) (hs : adjustedSize w cs = .ok sz)
    (hh : clusterExistingHeuristic (machineHealthy w) sz (some ns) = some []) :
    (JoinRun w du n iapu true cs strat).1 = .error .clusterDownNotJoinable
    ∧ (JoinRun w du n iapu false cs strat).1 =
        .ok { initialCluster := [], initialClusterState := "existing",
              advertisePeerURLs := iapu, discovery := "", name := n } := by
  simp only [JoinRun, hr, hs, hh]
  exact ⟨rfl, rfl⟩

/-- Claim C5 witness: the dormant sample world, fresh and non-fresh. -/
theorem C5_dormant_dispatch_witness :
    (JoinRun wDormant "http://disc" "n" "http://n:2380" true 3 .replace).1
        = .error .clusterDownNotJoinable
    ∧ (JoinRun wDormant "http://disc" "n" "http://n:2380" false 3 .replace).1 =
        .ok { initialCluster := [], initialClusterState := "existing",
              advertisePeerURLs := "http://n:2380", discovery := "", name := "n" } :=
  C5_dormant_dispatch wDormant "http://disc" "n" "http://n:2380" 3 .replace
    [machA, machB, machC] 3 (by decide) (by decide) (by decide)

/-- Claim C8: when the membership contains an unstarted member whose peer
URLs are a subset of those of the caller, `Add` issues no mutating call, leaves the
membership unchanged, and — beyond the quorum guard — returns the found
peer URLs of the found member. -/
theorem C8_unstarted_recycle (w : World) (strat : Strategy) (ts : Int)
    (urls : List String)
    (h : ∃ m ∈ w.members, m.name = "" ∧ ∀ u ∈ m.peerURLs, u ∈ urls) :
    mutationCount (MemberAdder.Add w strat ts urls).calls = 0
    ∧ (MemberAdder.Add w strat ts urls).final = w.members
    ∧ ∃ m', findUnstartedMember w.members urls = some m'
        ∧ ((MemberAdder.Add w strat ts urls).result = .ok m'.peerURLs
           ∨ (MemberAdder.Add w strat ts urls).result = .error .quorumAtRisk) := by
  have hsome : (findUnstartedMember w.members urls).isSome = true := by
    rcases h with ⟨m, hm, hname, hsub⟩
    unfold findUnstartedMember
    rw [List.find?_isSome]
    refine ⟨m, hm, ?_⟩
    simp only [hname, beq_self_eq_true, Bool.true_and, List.all_eq_true]
    intro u hu
    exact List.elem_eq_true_of_mem (hsub u hu)
  rcases Option.isSome_iff_exists.mp hsome with ⟨m', hm'⟩
  unfold MemberAdder.Add
  rw [hm']
  rcases hpq : protectQuorum w w.members with e | u
  · have he := protectQuorum_error_eq w w.members e hpq
    subst he
    exact ⟨rfl, rfl, m', rfl, Or.inr rfl⟩
  · cases u
    exact ⟨rfl, rfl, m', rfl, Or.inl rfl⟩

/-- Claim C8 witness: the sample membership holding the zero-URL unstarted
member recycled under the replace strategy. -/
theorem C8_unstarted_recycle_witness :
    mutationCount (MemberAdder.Add wJoin .replace 3 ["http://x:2380"]).calls = 0
    ∧ (MemberAdder.Add wJoin .replace 3 ["http://x:2380"]).final = wJoin.members
    ∧ ∃ m', findUnstartedMember wJoin.members ["http://x:2380"] = some m'
        ∧ ((MemberAdder.Add wJoin .replace 3 ["http://x:2380"]).result = .ok m'.peerURLs
           ∨ (MemberAdder.Add wJoin .replace 3 ["http://x:2380"]).result
               = .error .quorumAtRisk) :=
  C8_unstarted_recycle wJoin .replace 3 ["http://x:2380"] (by decide)

theorem splitCommaAux_ne_nil (cs : List Char) : ∀ acc, splitCommaAux cs acc ≠ [] := by
  induction cs with
  | nil => intro acc; simp [splitCommaAux]
  | cons c cs ih =>
    intro acc
    unfold splitCommaAux
    split
    · simp
    · exact ih _

theorem splitComma_ne_nil (s : String) : splitComma s ≠ [] :=
  splitCommaAux_ne_nil s.data []

/-- The existing-state configuration the sample join world produces. -/
def cfgJoinSample : EtcdConfig :=
  { initialCluster := ["a=http://a:2380", "b=http://b:2380"],
    initialClusterState := "existing",
    advertisePeerURLs := "http://n:2380", discovery := "", name := "n" }

/-- Claim C4, counterexample: joining the sample world recycles the
zero-URL unstarted member, so the emitted existing-state config has a
non-empty initial cluster whose head is a named URL of active node `a`,
not one of the joining node `n`. -/
theorem C4_config_counterexample :
    (JoinRun wJoin "http://disc" "n" "http://n:2380" true 3 .add).1 = .ok cfgJoinSample
    ∧ cfgJoinSample.initialClusterState = "existing"
    ∧ cfgJoinSample.initialCluster.isEmpty = false
    ∧ decide (namedFor "n" (cfgJoinSample.initialCluster.headD "")) = false :=
  ⟨by decide, by decide, by decide, by decide⟩

/-- Claim C4, amended: every config emitted by `Join` with state `new` has
the discovery URL set and an empty initial cluster; every config with state
`existing` has no discovery URL and an initial cluster that is empty, or
begins with a named URL of the joining node, or — when the member adder
recycled an unstarted member with no peer URLs and so returned the empty
URL list — consists exactly of the named URLs of the active nodes. -/
theorem C4_config_invariant_amended (w : World) (du n iapu : String)
    (fresh : Bool) (cs : Int) (strat : Strategy) (cfg : EtcdConfig)
    (h : (JoinRun w du n iapu fresh cs strat).1 = .ok cfg) :
    (cfg.initialClusterState = "new" →
      cfg.discovery = du ∧ cfg.initialCluster = [])
    ∧ (cfg.initialClusterState = "existing" →
      cfg.discovery = "" ∧
        (cfg.initialCluster = []
         ∨ namedFor n (cfg.initialCluster.headD "")
         ∨ ∃ ns sz as, rosterResult w = .ok ns ∧ adjustedSize w cs = .ok sz
             ∧ clusterExistingHeuristic (machineHealthy w) sz (some ns) = some as
             ∧ (MemberAdder.Add w strat sz (splitComma iapu)).result = .ok []
             ∧ cfg.initialCluster = allNamedURLs as)) := by
  unfold JoinRun at h
  split at h
  · simp at h
  next nodes hnodes =>
    split at h
    · simp at h
    next size hsize =>
      split at h
      · -- dormant verdict
        split at h
        · simp at h
        · simp only [Prod.fst] at h
          injection h with h
          subst h
          exact ⟨fun hst => by simp at hst, fun _ => ⟨rfl, Or.inl rfl⟩⟩
      next activeNodes hne hheu =>
        -- running verdict
        split at h
        · simp at h
        next first rest hmap =>
          split at h
          · -- adding branch
            split at h
            · simp at h
            next hadder =>
              split at h
              · simp at h
              next initialURLs hres =>
                simp only [Prod.fst] at h
                injection h with h
                subst h
                refine ⟨fun hst => by simp at hst, fun _ => ⟨rfl, ?_⟩⟩
                cases initialURLs with
                | nil =>
                  refine Or.inr (Or.inr ⟨nodes, size, activeNodes, hnodes, hsize, hheu, hres, ?_⟩)
                  simp
                | cons v vs =>
                  refine Or.inr (Or.inl ?_)
                  simp only [List.map, List.cons_append, List.headD_cons]
                  exact ⟨v, rfl⟩
          · -- prepared-or-not-fresh branch
            simp only [Prod.fst] at h
            injection h with h
            subst h
            refine ⟨fun hst => by simp at hst, fun _ => ⟨rfl, ?_⟩⟩
            refine Or.inr (Or.inl ?_)
            rcases hsp : splitComma iapu with _ | ⟨u, us⟩
            · exact absurd hsp (splitComma_ne_nil iapu)
            · rw [hsp] at hmap
              simp only [List.map] at hmap
              injection hmap with h1 h2
              simp only [List.headD_cons]
              exact ⟨u, h1.symm⟩
      · -- new-cluster verdict
        simp only [Prod.fst] at h
        injection h with h
        subst h
        exact ⟨fun _ => ⟨rfl, rfl⟩, fun hst => by simp at hst⟩

/-- Claim C4 witness: the amended invariant applied to the sample join. -/
theorem C4_config_invariant_amended_witness :
    (cfgJoinSample.initialClusterState = "new" →
      cfgJoinSample.discovery = "http://disc" ∧ cfgJoinSample.initialCluster = [])
    ∧ (cfgJoinSample.initialClusterState = "existing" →
      cfgJoinSample.discovery = "" ∧
        (cfgJoinSample.initialCluster = []
         ∨ namedFor "n" (cfgJoinSample.initialCluster.headD "")
         ∨ ∃ ns sz as, rosterResult wJoin = .ok ns ∧ adjustedSize wJoin 3 = .ok sz
             ∧ clusterExistingHeuristic (machineHealthy wJoin) sz (some ns) = some as
             ∧ (MemberAdder.Add wJoin .add sz (splitComma "http://n:2380")).result = .ok []
             ∧ cfgJoinSample.initialCluster = allNamedURLs as)) :=
  C4_config_invariant_amended wJoin "http://disc" "n" "http://n:2380" true 3 .add
    cfgJoinSample (by decide)

/-- Claim C10, counterexample: with an unstarted member carrying a peer URL
listed before the zero-URL unstarted member, `Add` recycles the former and
returns its non-empty peer-URL list, not the empty list of the zero-URL
member the claim promises. -/
theorem C10_first_match_counterexample :
    (MemberAdder.Add wTwoUnstarted .add 3 ["http://n:2380"]).result
        = .ok ["http://n:2380"]
    ∧ (wTwoUnstarted.members.filter fun m => m.name == "" && m.peerURLs.isEmpty).length
        = 1
    ∧ decide ((MemberAdder.Add wTwoUnstarted .add 3 ["http://n:2380"]).result
        = .ok []) = false :=
  ⟨by decide, by decide, by decide⟩

/-- Claim C10, amended: when the first unstarted member matching the subset
test has zero peer URLs (so the test holds vacuously) and the guard passes,
`Add` recycles it and returns the empty URL list; a fresh `Join` under a
non-prepared strategy on a running cluster then emits an existing-state
config whose initial cluster consists exactly of the named
URLs, with no entry for the joining node prepended. -/
theorem C10_zero_url_recycle_amended (w : World) (du n iapu : String)
    (cs : Int) (strat : Strategy) (ns : List Machine) (sz : Int)
    (a : Machine) (as : List Machine) (m : Member)
    (hstrat : (strat == Strategy.prepared) = false)
    (hr : rosterResult w = .ok ns) (hs : adjustedSize w cs = .ok sz)
    (hh : clusterExistingHeuristic (machineHealthy w) sz (some ns) = some (a :: as))
    (hfind : findUnstartedMember w.members (splitComma iapu) = some m)
    (hm : m.peerURLs = [])
    (hg : protectQuorum w w.members = .ok ())
    (hadder : w.adderNewFails = false) :
    (MemberAdder.Add w strat sz (splitComma iapu)).result = .ok []
    ∧ (JoinRun w du n iapu true cs strat).1 =
        .ok { initialCluster := allNamedURLs (a :: as),
              initialClusterState := "existing",
              advertisePeerURLs := iapu, discovery := "", name := n } := by
  have hAdd : (MemberAdder.Add w strat sz (splitComma iapu)).result = .ok [] := by
    simp only [MemberAdder.Add, hfind, hg, hm]
  refine ⟨hAdd, ?_⟩
  rcases hsp : splitComma iapu with _ | ⟨u, us⟩
  · exact absurd hsp (splitComma_ne_nil iapu)
  · rw [hsp] at hAdd
    simp only [JoinRun, hr, hs, hh, hsp, List.map, hstrat, hadder, Bool.not_false,
      Bool.true_and, if_true, Bool.false_eq_true, if_false, hAdd]
    simp

/-- Claim C10 witness: the amended statement applied to the sample join
world, whose membership holds the zero-URL unstarted member first. -/
theorem C10_zero_url_recycle_amended_witness :
    (MemberAdder.Add wJoin .add 3 (splitComma "http://n:2380")).result = .ok []
    ∧ (JoinRun wJoin "http://disc" "n" "http://n:2380" true 3 .add).1 =
        .ok { initialCluster := allNamedURLs [machA, machB],
              initialClusterState := "existing",
              advertisePeerURLs := "http://n:2380", discovery := "", name := "n" } :=
  C10_zero_url_recycle_amended wJoin "http://disc" "n" "http://n:2380" 3 .add
    [machA, machB] 3 machA [machB] mU (by decide) (by decide) (by decide)
    (by decide) (by decide) (by decide) (by decide) (by decide)

/-- Claim C9 (code bug): a discovery child entry without a value makes
`Join` crash (modelled as the `nilValuePanic` error) instead of being
skipped, while an entry whose value merely fails to parse is skipped and the
remaining entries are kept. -/
theorem C9_nil_value_eval :
    (JoinRun wNilValue "http://disc" "n" "http://n:2380" true 3 .replace).1
        = .error .nilValuePanic
    ∧ rosterResult wBadToken = .ok [machA] :=
  ⟨by decide, by decide⟩

end ElasticEtcd
